import Mathlib

/-!
Verification development for the email → document-store worker in
`src/index.ts` (the current revision of the file; the earlier revision
concatenated above it is referenced only where a claim cites it).

Modelling conventions:
* JavaScript strings are modelled as Lean `String` (a list of Unicode
  scalar values).  All inputs relevant to the claims live in the basic
  multilingual plane, where JS UTF-16 code-unit indexing coincides with
  character indexing.
* `undefined` / `null` parameters are modelled with `Option`.
* The specific regular expressions of the source are deterministic
  (every`*` is followed by a character disjoint from the starred class),
  so each is embedded as a direct deterministic scanner.
* `crypto.subtle.digest("SHA-256", …)` is a platform primitive, not
  repository code; it is modelled by a full executable SHA-256 over
  byte lists (`sha256Bytes`), together with a UTF-8 encoder modelling
  `TextEncoder`.
-/

set_option maxHeartbeats 2000000
set_option maxRecDepth 10000

/-- Characters matched by the JavaScript regex class `\s`, which is also
the set trimmed by `String.prototype.trim`. -/
def jsWhitespace (c : Char) : Bool :=
  let n := c.toNat
  (9 ≤ n && n ≤ 13) || n == 32 || n == 160 || n == 5760 ||
  (8192 ≤ n && n ≤ 8202) || n == 8232 || n == 8233 || n == 8239 ||
  n == 8287 || n == 12288 || n == 65279

/-- Both-ends whitespace removal on character lists. -/
def trimChars (l : List Char) : List Char :=
  ((l.dropWhile jsWhitespace).reverse.dropWhile jsWhitespace).reverse

/-- Model of `String.prototype.trim`. -/
def jsTrim (s : String) : String := String.mk (trimChars s.data)

/-- Case-insensitive literal match: consumes `pat` (given in lowercase)
from the front of the input, returning the remainder on success. -/
def matchCI : List Char → List Char → Option (List Char)
  | [], l => some l
  | _ :: _, [] => none
  | p :: ps, c :: cs => if c.toLower = p then matchCI ps cs else none

/-- The letters of the marker token. -/
def inboxChars : List Char := [ 'i', 'n', 'b', 'o', 'x' ]

/-- Scanner for the regex alternative `\[\s*inbox\s*\]` (case-insensitive):
returns the remainder after the closing bracket. -/
def matchBracketMarker (l : List Char) : Option (List Char) :=
  match l with
  | '[' :: rest =>
    match matchCI inboxChars (rest.dropWhile jsWhitespace) with
    | some r2 =>
      match r2.dropWhile jsWhitespace with
      | ']' :: r4 => some r4
      | _ => none
    | none => none
  | _ => none

/-- Scanner for the regex group `(?:\[\s*inbox\s*\]|inbox)` used by
`normalizeTitle` in `src/index.ts`. -/
def matchMarker (l : List Char) : Option (List Char) :=
  match matchBracketMarker l with
  | some r => some r
  | none => matchCI inboxChars l

/-- The character class `[:\-–—]` of the `normalizeTitle` regex. -/
def isColonDash (c : Char) : Bool :=
  c == ':' || c == '-' || c == '–' || c == '—'

/-- One application of
`subject.replace(/^\s*(?:\[\s*inbox\s*\]|inbox)\s*[:\-–—]*\s*/i, "")`:
when the anchored pattern matches, the matched span is removed;
otherwise the input is returned unchanged. -/
def stripMarker (l : List Char) : List Char :=
  match matchMarker (l.dropWhile jsWhitespace) with
  | some rest =>
    ((rest.dropWhile jsWhitespace).dropWhile isColonDash).dropWhile jsWhitespace
  | none => l

/-- `normalizeTitle` of `src/index.ts` (current revision): strip the
leading marker, then trim. -/
def normalizeTitle (subject : String) : String :=
  jsTrim (String.mk (stripMarker subject.data))

/-- `buildTitle` of `src/index.ts`: the normalized subject when
non-empty, else a placeholder built from the first 10 characters of the
supplied ISO timestamp (`receivedAt.slice(0, 10)`). -/
def buildTitle (subject receivedAt : String) : String :=
  let normalized := normalizeTitle subject
  if normalized.length ≠ 0 then normalized
  else ("Inbox email ") ++ String.mk (receivedAt.data.take 10)

/-- Helper for `hasInboxCI`: does the (already lowercased) character
list contain `inbox` as a contiguous substring? -/
def containsInboxLC : List Char → Bool
  | [] => false
  | c :: cs => inboxChars.isPrefixOf (c :: cs) || containsInboxLC cs

/-- Model of the gate test `/inbox/i.test(subject)` (present in the
earlier revision of the `email` handler, `src/index.ts` lines 36-42). -/
def hasInboxCI (s : String) : Bool := containsInboxLC (s.data.map Char.toLower)

/-- JavaScript truthiness of a nullable string: `null`, `undefined` and
the empty string are falsy. -/
def jsTruthyStr : Option String → Bool
  | none => false
  | some s => s != ("")

/-- Model of `String.prototype.toLowerCase` (per-character lowering). -/
def toLowerStr (s : String) : String := String.mk (s.data.map Char.toLower)

/-- `parseAllowlist` of `src/index.ts`: split the configured value on
commas, trim and lowercase each entry, drop empties; `none` when the
value is missing, empty, or yields no entries. -/
def parseAllowlist (allowedFrom : Option String) : Option (List String) :=
  match allowedFrom with
  | none => none
  | some s =>
    if s = ("") then none
    else
      let entries :=
        ((s.splitOn (",")).map (fun e => toLowerStr (jsTrim e))).filter (fun e => e != (""))
      if entries = [] then none else some entries

/-- Whether `handleNotionCreate` of `src/index.ts` (lines 391-494)
reaches the outbound create call: it returns early only when an
allowlist is configured and the sender is missing or not in it; it
never consults the subject. -/
def handleNotionCreateMakesCall (fromAddress : Option String) (allowedFrom : Option String) : Bool :=
  match parseAllowlist allowedFrom with
  | none => true
  | some entries =>
    jsTruthyStr fromAddress && entries.contains (toLowerStr (fromAddress.getD ("")))

/-- Whether the current `email` handler (`src/index.ts` lines 291-316)
reaches the outbound create call.  The handler parses the message, logs,
resolves the body and calls `handleNotionCreate` unconditionally: the
subject is never tested for the marker token. -/
def emailHandlerMakesCall (_subject : Option String) (fromAddress : Option String)
    (allowedFrom : Option String) : Bool :=
  handleNotionCreateMakesCall fromAddress allowedFrom

/-- Global leftmost non-overlapping replacement, the semantics of
`String.prototype.replace` with a `g`-flagged regex: at each position
try the scanner; on a match emit the replacement and resume after the
matched span (the replacement is not rescanned), otherwise keep the
character and move on.  The fuel argument (instantiated with the input
length by `replaceScan`) only bounds the recursion structurally: every
scanner used below consumes at least one character — the guard
recursing on `cs` when a scanner consumed nothing, and the
fuel-exhausted case, are never reached. -/
def replaceScanFuel (m : List Char → Option (List Char)) (repl : List Char) :
    Nat → List Char → List Char
  | _, [] => []
  | 0, l => l
  | fuel + 1, c :: cs =>
    match m (c :: cs) with
    | some rest =>
      if rest.length ≤ cs.length then repl ++ replaceScanFuel m repl fuel rest
      else c :: replaceScanFuel m repl fuel cs
    | none => c :: replaceScanFuel m repl fuel cs

/-- `text.replace(pattern, repl)` with a global regex, via
`replaceScanFuel` with sufficient fuel. -/
def replaceScan (m : List Char → Option (List Char)) (repl : List Char)
    (l : List Char) : List Char :=
  replaceScanFuel m repl l.length l

/-- Scanner for the regex `<\s*br\s*\/?\s*>` (case-insensitive). -/
def matchBrTag (l : List Char) : Option (List Char) :=
  match l with
  | '<' :: rest =>
    match rest.dropWhile jsWhitespace with
    | b :: r2 =>
      if b.toLower = 'b' then
        match r2 with
        | r :: r3 =>
          if r.toLower = 'r' then
            let r4 := r3.dropWhile jsWhitespace
            let r5 := match r4 with
              | '/' :: t => t
              | _ => r4
            match r5.dropWhile jsWhitespace with
            | '>' :: r6 => some r6
            | _ => none
          else none
        | [] => none
      else none
    | [] => none
  | _ => none

/-- Scanner for a closing-tag regex `<\s*\/NAME\s*>` (case-insensitive),
used with `p` and `div`. -/
def matchCloseTag (name : List Char) (l : List Char) : Option (List Char) :=
  match l with
  | '<' :: rest =>
    match rest.dropWhile jsWhitespace with
    | '/' :: r2 =>
      match matchCI name r2 with
      | some r3 =>
        match r3.dropWhile jsWhitespace with
        | '>' :: r4 => some r4
        | _ => none
      | none => none
    | _ => none
  | _ => none

/-- Scanner for the tag-stripping regex `<[^>]+>`. -/
def matchAnyTag (l : List Char) : Option (List Char) :=
  match l with
  | '<' :: rest =>
    let inner := rest.takeWhile (fun c => c != '>')
    match rest.drop inner.length with
    | '>' :: r2 => if inner.length = 0 then none else some r2
    | _ => none
  | _ => none

/-- `decodeHtmlEntities` of `src/index.ts`: six sequential global
case-insensitive fixed-string replacements. -/
def decodeHtmlEntities (l : List Char) : List Char :=
  let e1 := replaceScan (matchCI ("&nbsp;").data) (" ").data l
  let e2 := replaceScan (matchCI ("&lt;").data) ("<").data e1
  let e3 := replaceScan (matchCI ("&gt;").data) (">").data e2
  let e4 := replaceScan (matchCI ("&amp;").data) ("&").data e3
  let e5 := replaceScan (matchCI ("&quot;").data) ("\"").data e4
  replaceScan (matchCI ("&#39;").data) ("\x27").data e5

/-- `htmlToText` of `src/index.ts`: line-break-producing tags become
newlines, remaining tags are stripped, then entities are decoded. -/
def htmlToText (html : String) : String :=
  let b1 := replaceScan matchBrTag ("\n").data html.data
  let b2 := replaceScan (matchCloseTag [ 'p' ]) ("\n").data b1
  let b3 := replaceScan (matchCloseTag [ 'd', 'i', 'v' ]) ("\n").data b2
  let stripped := replaceScan matchAnyTag [] b3
  String.mk (decodeHtmlEntities stripped)

/-- The `source` discriminant of a resolved body. -/
inductive BodySource where
  | text
  | html
  | raw
  | empty
deriving DecidableEq, Repr

/-- The guard `x && x.trim().length` used on each candidate by
`resolveMailText`: JS truthiness of the string plus a non-blank trim. -/
def nonBlankJs : Option String → Bool
  | none => false
  | some s => (s != ("")) && (jsTrim s != (""))

/-- `resolveMailText` of `src/index.ts` (lines 534-549): first match
wins among plain text, converted HTML, and the raw fallback. -/
def resolveMailText (text html rawFallback : Option String) : String × BodySource :=
  if nonBlankJs text then (jsTrim (text.getD ("")), BodySource.text)
  else if nonBlankJs html then (jsTrim (htmlToText (html.getD (""))), BodySource.html)
  else if nonBlankJs rawFallback then (jsTrim (rawFallback.getD ("")), BodySource.raw)
  else (("") , BodySource.empty)

/-- Modelled from the spec: "non-blank means the string has at least one
non-whitespace character after trimming". -/
def specNonBlank : Option String → Bool
  | none => false
  | some s => jsTrim s != ("")

/-- Modelled from the spec: the body-resolution policy of section 4.1,
written with the spec's notion of non-blankness, for comparison with
the source-derived `resolveMailText`. -/
def specResolveMailText (text html rawFallback : Option String) : String × BodySource :=
  if specNonBlank text then (jsTrim (text.getD ("")), BodySource.text)
  else if specNonBlank html then (jsTrim (htmlToText (html.getD (""))), BodySource.html)
  else if specNonBlank rawFallback then (jsTrim (rawFallback.getD ("")), BodySource.raw)
  else (("") , BodySource.empty)

def RAW_PREVIEW_LIMIT : Nat := 1800

def CHILD_BLOCK_LIMIT : Nat := 1500

def TITLE_LIMIT : Nat := 200

/-- The loop of `splitIntoChunks`: emit `slice(i, i + limit)` pieces.
Written head-first — for `limit ≥ 1` the emitted head is `take limit`
of the remainder and the recursive argument is its `drop limit`,
exactly the source loop.  The structural fuel (instantiated with the
input length by `chunksGo`) is never exhausted because each step
removes at least one character; for `limit = 0` the source loop would
not terminate, and no claim concerns that case. -/
def chunksGoFuel : Nat → List Char → Nat → List (List Char)
  | _, [], _ => []
  | fuel + 1, c :: cs, limit =>
    (c :: cs.take (limit - 1)) :: chunksGoFuel fuel (cs.drop (limit - 1)) limit
  | 0, _ :: _, _ => []

/-- The chunking loop at sufficient fuel. -/
def chunksGo (l : List Char) (limit : Nat) : List (List Char) :=
  chunksGoFuel l.length l limit

/-- `splitIntoChunks` of `src/index.ts` (lines 601-610). -/
def splitIntoChunks (text : String) (limit : Nat) : List String :=
  if text = ("") then [] else (chunksGo text.data limit).map String.mk

/-- Concatenation of a chunk sequence, for stating the partition
property. -/
def concatChunks : List String → String
  | [] => ("")
  | s :: rest => s ++ concatChunks rest

/-- A Notion paragraph block; only the text content varies, the
constant structural tags of the JSON shape are omitted. -/
structure NotionParagraphBlock where
  content : String
deriving DecidableEq, Repr

/-- `buildParagraph` of `src/index.ts`. -/
def buildParagraph (content : String) : NotionParagraphBlock := ⟨content⟩

/-- `buildChildrenBlocks` of `src/index.ts` (lines 584-599): an optional
leading `From:` paragraph followed by the non-whitespace chunks of the
body at the per-block cap. -/
def buildChildrenBlocks (text : String) (fromAddress : Option String) :
    List NotionParagraphBlock :=
  (if jsTruthyStr fromAddress
    then [ buildParagraph (("From: ") ++ fromAddress.getD ("")) ] else []) ++
  ((splitIntoChunks text CHILD_BLOCK_LIMIT).filter (fun c => jsTrim c != (""))).map
    buildParagraph

/-- `truncateText` of `src/index.ts` (lines 627-632). -/
def truncateText (value : String) (limit : Nat) : String :=
  if value = ("") then ("")
  else if limit < value.length then String.mk (value.data.take limit) else value

/-- Addition modulo 2^32, the word arithmetic of SHA-256. -/
def add32 (a b : Nat) : Nat := (a + b) % 4294967296

/-- Right rotation of a 32-bit word. -/
def rotr32 (n x : Nat) : Nat := x / 2 ^ n + x % 2 ^ n * 2 ^ (32 - n)

/-- Bitwise complement of a 32-bit word. -/
def not32 (x : Nat) : Nat := x ^^^ 4294967295

def sha256Ch (e f g : Nat) : Nat := (e &&& f) ^^^ (not32 e &&& g)

def sha256Maj (a b c : Nat) : Nat := (a &&& b) ^^^ (a &&& c) ^^^ (b &&& c)

def bsig0 (x : Nat) : Nat := rotr32 2 x ^^^ rotr32 13 x ^^^ rotr32 22 x

def bsig1 (x : Nat) : Nat := rotr32 6 x ^^^ rotr32 11 x ^^^ rotr32 25 x

def ssig0 (x : Nat) : Nat := rotr32 7 x ^^^ rotr32 18 x ^^^ x / 2 ^ 3

def ssig1 (x : Nat) : Nat := rotr32 17 x ^^^ rotr32 19 x ^^^ x / 2 ^ 10

/-- The SHA-256 round constants (fractional parts of the cube roots of
the first 64 primes). -/
def sha256K : List Nat :=
  [1116352408, 1899447441, 3049323471, 3921009573, 961987163, 1508970993,
   2453635748, 2870763221, 3624381080, 310598401, 607225278, 1426881987,
   1925078388, 2162078206, 2614888103, 3248222580, 3835390401, 4022224774,
   264347078, 604807628, 770255983, 1249150122, 1555081692, 1996064986,
   2554220882, 2821834349, 2952996808, 3210313671, 3336571891, 3584528711,
   113926993, 338241895, 666307205, 773529912, 1294757372, 1396182291,
   1695183700, 1986661051, 2177026350, 2456956037, 2730485921, 2820302411,
   3259730800, 3345764771, 3516065817, 3600352804, 4094571909, 275423344,
   430227734, 506948616, 659060556, 883997877, 958139571, 1322822218,
   1537002063, 1747873779, 1955562222, 2024104815, 2227730452, 2361852424,
   2428436474, 2756734187, 3204031479, 3329325298]

/-- The eight-word SHA-256 hash state. -/
structure Sha256State where
  h0 : Nat
  h1 : Nat
  h2 : Nat
  h3 : Nat
  h4 : Nat
  h5 : Nat
  h6 : Nat
  h7 : Nat

/-- Initial SHA-256 hash values (fractional parts of the square roots of
the first 8 primes). -/
def sha256Init : Sha256State :=
  ⟨1779033703, 3144134277, 1013904242, 2773480762,
   1359893119, 2600822924, 528734635, 1541459225⟩

/-- The working variables of one compression round. -/
structure Sha256Round where
  a : Nat
  b : Nat
  c : Nat
  d : Nat
  e : Nat
  f : Nat
  g : Nat
  h : Nat

/-- One SHA-256 compression round for a constant/schedule-word pair. -/
def sha256RoundStep (s : Sha256Round) (kw : Nat × Nat) : Sha256Round :=
  let t1 := (s.h + bsig1 s.e + sha256Ch s.e s.f s.g + kw.1 + kw.2) % 4294967296
  let t2 := (bsig0 s.a + sha256Maj s.a s.b s.c) % 4294967296
  ⟨(t1 + t2) % 4294967296, s.a, s.b, s.c, (s.d + t1) % 4294967296, s.e, s.f, s.g⟩

/-- Big-endian 32-bit words from a byte list (trailing incomplete groups
are dropped; padded blocks never have any). -/
def toWords : List Nat → List Nat
  | a :: b :: c :: d :: rest => (((a * 256 + b) * 256 + c) * 256 + d) :: toWords rest
  | _ => []

/-- Extend the 16 message words by `n` further schedule words. -/
def extendSchedule : Nat → List Nat → List Nat
  | 0, w => w
  | n + 1, w =>
    let i := w.length
    let x := (ssig1 (w.getD (i - 2) 0) + w.getD (i - 7) 0 +
              ssig0 (w.getD (i - 15) 0) + w.getD (i - 16) 0) % 4294967296
    extendSchedule n (w ++ [x])

/-- Compress one 64-byte block into the hash state. -/
def sha256Compress (st : Sha256State) (block : List Nat) : Sha256State :=
  let w := extendSchedule 48 (toWords block)
  let r0 : Sha256Round := ⟨st.h0, st.h1, st.h2, st.h3, st.h4, st.h5, st.h6, st.h7⟩
  let r := (sha256K.zip w).foldl sha256RoundStep r0
  ⟨add32 st.h0 r.a, add32 st.h1 r.b, add32 st.h2 r.c, add32 st.h3 r.d,
   add32 st.h4 r.e, add32 st.h5 r.f, add32 st.h6 r.g, add32 st.h7 r.h⟩

/-- Big-endian bytes of an eight-byte (64-bit) length field. -/
def beBytes8 (n : Nat) : List Nat :=
  [n / 2 ^ 56 % 256, n / 2 ^ 48 % 256, n / 2 ^ 40 % 256, n / 2 ^ 32 % 256,
   n / 2 ^ 24 % 256, n / 2 ^ 16 % 256, n / 2 ^ 8 % 256, n % 256]

/-- SHA-256 padding: a `0x80` byte, zeros to 56 mod 64, and the
big-endian bit length. -/
def padMessage (msg : List Nat) : List Nat :=
  let len := msg.length
  msg ++ [128] ++ List.replicate ((64 - (len + 9) % 64) % 64) 0 ++ beBytes8 (len * 8)

/-- Split the padded message into 64-byte blocks (head-first for
structural termination; the padded length is a positive multiple
of 64). -/
def toBlocks : List Nat → List (List Nat)
  | [] => []
  | b :: rest => (b :: rest.take 63) :: toBlocks (rest.drop 63)
termination_by l => l.length
decreasing_by
  simp [List.length_cons]
  omega

/-- Big-endian bytes of one hash word. -/
def wordBytes (w : Nat) : List Nat :=
  [w / 2 ^ 24 % 256, w / 2 ^ 16 % 256, w / 2 ^ 8 % 256, w % 256]

/-- The SHA-256 digest of a byte list, as 32 bytes.  Model of the
platform primitive `crypto.subtle.digest("SHA-256", data)`, which is
not repository code. -/
def sha256Bytes (msg : List Nat) : List Nat :=
  let final := (toBlocks (padMessage msg)).foldl sha256Compress sha256Init
  wordBytes final.h0 ++ wordBytes final.h1 ++ wordBytes final.h2 ++
  wordBytes final.h3 ++ wordBytes final.h4 ++ wordBytes final.h5 ++
  wordBytes final.h6 ++ wordBytes final.h7

/-- UTF-8 encoding of one Unicode scalar value, modelling
`TextEncoder.encode` per character. -/
def utf8EncodeCharNat (n : Nat) : List Nat :=
  if n < 128 then [n]
  else if n < 2048 then [192 + n / 64, 128 + n % 64]
  else if n < 65536 then [224 + n / 4096, 128 + n / 64 % 64, 128 + n % 64]
  else [240 + n / 262144, 128 + n / 4096 % 64, 128 + n / 64 % 64, 128 + n % 64]

/-- UTF-8 bytes of a string, modelling `new TextEncoder().encode(value)`. -/
def utf8Bytes (s : String) : List Nat :=
  (s.data.map (fun c => utf8EncodeCharNat c.toNat)).flatten

/-- JS `byte.toString(16).padStart(2, "0")`: lowercase hex digits of the
byte, left-padded to two characters. -/
def byteToHexChars (b : Nat) : List Char :=
  let digits := Nat.toDigits 16 b
  if digits.length ≥ 2 then digits
  else if digits.length = 1 then '0' :: digits
  else [ '0', '0' ]

/-- `sha256Hex` of `src/index.ts` (lines 660-664): UTF-8 encode, digest,
and render each byte as two lowercase hex characters. -/
def sha256Hex (value : String) : String :=
  String.mk (((sha256Bytes (utf8Bytes value)).map byteToHexChars).flatten)

/-- Lowercase-hexadecimal alphabet membership. -/
def isLowerHexChar (c : Char) : Bool :=
  ( '0' ≤ c && c ≤ '9' ) || ( 'a' ≤ c && c ≤ 'f' )

/-- `buildFingerprint` of `src/index.ts` (lines 666-675): hash the body,
splice the body hash into the `from|subject|date|bodyHash` material, and
hash the material. -/
def buildFingerprint (fromAddr subject : Option String) (date : String)
    (body : Option String) : String :=
  let bodyHash := sha256Hex (body.getD (""))
  let material :=
    fromAddr.getD ("") ++ ("|") ++ subject.getD ("") ++ ("|") ++ date ++ ("|") ++ bodyHash
  sha256Hex material

/-- Splitting a character list at every space, the semantics of the
JavaScript `header.split(" ")`. -/
def splitAtSpaces : List Char → List (List Char)
  | [] => [[]]
  | c :: cs =>
    if c = ' ' then [] :: splitAtSpaces cs
    else
      match splitAtSpaces cs with
      | h :: t => (c :: h) :: t
      | [] => [[c]]

/-- Model of `String.prototype.split(" ")`. -/
def jsSplitSpace (s : String) : List String :=
  (splitAtSpaces s.data).map String.mk

/-- JSON values, as produced by `JSON.parse` on the debug endpoint's
request body. -/
inductive Json where
  | null
  | bool (b : Bool)
  | num (n : Int)
  | str (s : String)
  | arr (elems : List Json)
  | obj (fields : List (String × Json))

/-- JavaScript truthiness of a parsed JSON value. -/
def jsTruthy : Json → Bool
  | Json.null => false
  | Json.bool b => b
  | Json.num n => n != 0
  | Json.str s => s != ("")
  | Json.arr _ => true
  | Json.obj _ => true

/-- Whether `typeof payload === "object"` holds for a parsed JSON value
(`null` and arrays are both `"object"` in JavaScript). -/
def jsTypeofIsObject : Json → Bool
  | Json.null => true
  | Json.arr _ => true
  | Json.obj _ => true
  | _ => false

/-- Whether a JSON value is a JSON object in the RFC 8259 sense, the
notion the claim's phrase "parseable as a JSON object" refers to. -/
def isJsonObject : Json → Bool
  | Json.obj _ => true
  | _ => false

/-- An HTTP request to the worker, reduced to the fields the `fetch`
handler consults.  `body = none` models a request body on which
`request.json()` rejects (the `.catch(() => null)` path). -/
structure DebugRequest where
  method : String
  path : String
  authHeader : Option String
  body : Option Json

/-- `requireBearerAuth` of `src/index.ts` (lines 816-829): `some reason`
is a rejection, `none` lets the request through.  `header.split(" ")`
destructured as `[scheme, value]` reads the first two space-separated
fields. -/
def requireBearerAuth (authHeader : Option String) (token : String) : Option String :=
  if token = ("") then some ("missing_token")
  else
    match authHeader with
    | none => some ("missing_header")
    | some header =>
      let parts := jsSplitSpace header
      if parts.getD 0 ("") ≠ ("Bearer") ∨ parts[1]? ≠ some token
      then some ("invalid_token") else none

/-- The routing/status behaviour of the `fetch` handler of
`src/index.ts` (lines 317-372), under the assumptions the claim makes:
required configuration present (`validateEnv` passed) and downstream
processing succeeding.  Returns the HTTP status code. -/
def workerFetch (req : DebugRequest) (bearerToken : String) : Nat :=
  if req.method ≠ ("POST") ∨ req.path ≠ ("/debug/email") then 404
  else
    match requireBearerAuth req.authHeader bearerToken with
    | some _ => 401
    | none =>
      match req.body with
      | none => 400
      | some payload =>
        if !jsTruthy payload || !jsTypeofIsObject payload then 400 else 200

/-- Modelled from the spec: the request carries a bearer credential
matching the configured secret when its Authorization header's first
two space-separated fields are `Bearer` and the secret. -/
def specAuthorized (authHeader : Option String) (token : String) : Bool :=
  match authHeader with
  | none => false
  | some h =>
    ((jsSplitSpace h).getD 0 ("") == ("Bearer")) &&
    ((jsSplitSpace h).getD 1 ("") == token)

/-- Modelled from the spec (amended): 404 off-route, 401 on a missing or
non-matching bearer credential, then 400 unless the body parsed to a
JSON object or a JSON array (the code's `typeof payload === "object"`
plus truthiness admits every array and every object and nothing else),
else 200. -/
def specDebugStatus (req : DebugRequest) (bearerToken : String) : Nat :=
  if req.method ≠ ("POST") ∨ req.path ≠ ("/debug/email") then 404
  else if !specAuthorized req.authHeader bearerToken then 401
  else
    match req.body with
    | none => 400
    | some payload =>
      match payload with
      | Json.obj _ => 200
      | Json.arr _ => 200
      | _ => 400

/-- Whether the anchored `normalizeTitle` regex matches a string at all:
optional leading whitespace followed by the marker group. -/
def markerMatches (s : String) : Bool :=
  (matchMarker (s.data.dropWhile jsWhitespace)).isSome

/-! Helper lemmas. -/

theorem string_mk_data (s : String) : String.mk s.data = s := rfl

theorem string_data_mk (l : List Char) : (String.mk l).data = l := rfl

theorem string_mk_append (a b : List Char) :
    String.mk a ++ String.mk b = String.mk (a ++ b) := rfl

theorem string_length_mk (l : List Char) : (String.mk l).length = l.length := rfl

theorem string_length_data (s : String) : s.length = s.data.length := rfl

theorem string_empty_mk : ("") = String.mk [] := rfl

theorem string_eq_empty_iff (s : String) : s = ("") ↔ s.length = 0 := by
  constructor
  · intro h
    subst h
    rfl
  · intro h
    have hd : s.data = [] := List.length_eq_zero.mp h
    rw [← string_mk_data s, hd]

theorem dropWhile_eq_drop (p : Char → Bool) (l : List Char) :
    l.dropWhile p = l.drop (l.takeWhile p).length := by
  induction l with
  | nil => rfl
  | cons c cs ih =>
    cases hp : p c with
    | true => simp [List.dropWhile_cons, List.takeWhile_cons, hp, ih]
    | false => simp [List.dropWhile_cons, List.takeWhile_cons, hp]

theorem dropWhile_clean_take (p : Char → Bool) (l : List Char)
    (hl : l.dropWhile p = l) (m : Nat) : (l.take m).dropWhile p = l.take m := by
  cases l with
  | nil => simp
  | cons c cs =>
    have hp : p c = false := by
      cases hpc : p c
      · rfl
      · exfalso
        simp only [List.dropWhile_cons, hpc, if_true] at hl
        have h1 : (List.dropWhile p cs).length ≤ cs.length :=
          (List.dropWhile_sublist (l := cs) p).length_le
        rw [hl] at h1
        simp [List.length_cons] at h1
    cases m with
    | zero => simp
    | succ m => simp [List.take_succ_cons, List.dropWhile_cons, hp]

theorem trimChars_of_clean (x : List Char) (hf : x.dropWhile jsWhitespace = x)
    (hb : x.reverse.dropWhile jsWhitespace = x.reverse) : trimChars x = x := by
  unfold trimChars
  rw [hf, hb, List.reverse_reverse]

theorem trimChars_idem (l : List Char) : trimChars (trimChars l) = trimChars l := by
  have ha : (l.dropWhile jsWhitespace).dropWhile jsWhitespace = l.dropWhile jsWhitespace :=
    List.dropWhile_idempotent _ _
  have hT : trimChars l =
      (l.dropWhile jsWhitespace).take
        ((l.dropWhile jsWhitespace).length -
          ((l.dropWhile jsWhitespace).reverse.takeWhile jsWhitespace).length) := by
    unfold trimChars
    rw [dropWhile_eq_drop jsWhitespace (l.dropWhile jsWhitespace).reverse]
    rw [List.reverse_drop]
    simp
  have hfront : (trimChars l).dropWhile jsWhitespace = trimChars l := by
    rw [hT]
    exact dropWhile_clean_take _ _ ha _
  have hback : (trimChars l).reverse.dropWhile jsWhitespace = (trimChars l).reverse := by
    show ((((l.dropWhile jsWhitespace).reverse.dropWhile jsWhitespace).reverse).reverse).dropWhile
        jsWhitespace =
      (((l.dropWhile jsWhitespace).reverse.dropWhile jsWhitespace).reverse).reverse
    rw [List.reverse_reverse]
    exact List.dropWhile_idempotent _ _
  exact trimChars_of_clean _ hfront hback

theorem jsTrim_idem (s : String) : jsTrim (jsTrim s) = jsTrim s := by
  unfold jsTrim
  rw [string_data_mk, trimChars_idem]

theorem jsTrim_empty : jsTrim ("") = ("") := rfl

theorem chunksGo_nil (limit : Nat) : chunksGo [] limit = [] := rfl

theorem chunksGoFuel_flatten (limit : Nat) :
    ∀ (n : Nat) (l : List Char), l.length ≤ n → (chunksGoFuel n l limit).flatten = l := by
  intro n
  induction n with
  | zero =>
    intro l h
    have hnil : l = [] := List.eq_nil_of_length_eq_zero (Nat.le_zero.mp h)
    subst hnil
    rfl
  | succ n ih =>
    intro l h
    cases l with
    | nil => rfl
    | cons c cs =>
      have hcs : cs.length ≤ n := by
        simp [List.length_cons] at h
        omega
      simp only [chunksGoFuel, List.flatten_cons]
      rw [ih (cs.drop (limit - 1)) (by rw [List.length_drop]; omega)]
      simp [List.take_append_drop]

theorem chunksGo_flatten (limit : Nat) (l : List Char) :
    (chunksGo l limit).flatten = l :=
  chunksGoFuel_flatten limit l.length l le_rfl

theorem chunksGoFuel_dropLast (limit : Nat) (hl : 1 ≤ limit) :
    ∀ (n : Nat) (l : List Char), l.length ≤ n →
      ∀ ch ∈ (chunksGoFuel n l limit).dropLast, ch.length = limit := by
  intro n
  induction n with
  | zero =>
    intro l h
    have hnil : l = [] := List.eq_nil_of_length_eq_zero (Nat.le_zero.mp h)
    subst hnil
    simp [chunksGoFuel]
  | succ n ih =>
    intro l h
    cases l with
    | nil => simp [chunksGoFuel]
    | cons c cs =>
      have hcs : cs.length ≤ n := by
        simp [List.length_cons] at h
        omega
      simp only [chunksGoFuel]
      cases hrest : cs.drop (limit - 1) with
      | nil =>
        have hz : chunksGoFuel n [] limit = [] := by
          cases n <;> rfl
        rw [hz, List.dropLast_single]
        simp
      | cons d ds =>
        have hne : chunksGoFuel n (d :: ds) limit ≠ [] := by
          have hn1 : 1 ≤ n := by
            have hc := congrArg List.length hrest
            rw [List.length_drop] at hc
            simp [List.length_cons] at hc
            omega
          cases n with
          | zero => omega
          | succ n => simp [chunksGoFuel]
        rw [List.dropLast_cons_of_ne_nil hne]
        intro ch hch
        rcases List.mem_cons.mp hch with hhead | htail
        · have hlen : limit - 1 < cs.length := by
            have hc := congrArg List.length hrest
            rw [List.length_drop] at hc
            simp [List.length_cons] at hc
            omega
          subst hhead
          simp [List.length_cons, List.length_take]
          have hmin := Nat.min_eq_left (Nat.le_of_lt hlen)
          omega
        · refine ih (cs.drop (limit - 1)) (by rw [List.length_drop]; omega) ch ?_
          rw [hrest]
          exact htail

theorem chunksGo_dropLast (limit : Nat) (hl : 1 ≤ limit) (l : List Char) :
    ∀ ch ∈ (chunksGo l limit).dropLast, ch.length = limit :=
  chunksGoFuel_dropLast limit hl l.length l le_rfl

theorem chunksGoFuel_all_le (limit : Nat) (hl : 1 ≤ limit) :
    ∀ (n : Nat) (l : List Char), l.length ≤ n →
      ∀ ch ∈ chunksGoFuel n l limit, ch.length ≤ limit := by
  intro n
  induction n with
  | zero =>
    intro l h
    have hnil : l = [] := List.eq_nil_of_length_eq_zero (Nat.le_zero.mp h)
    subst hnil
    simp [chunksGoFuel]
  | succ n ih =>
    intro l h
    cases l with
    | nil => simp [chunksGoFuel]
    | cons c cs =>
      have hcs : cs.length ≤ n := by
        simp [List.length_cons] at h
        omega
      simp only [chunksGoFuel]
      intro ch hch
      rcases List.mem_cons.mp hch with hhead | htail
      · subst hhead
        simp [List.length_cons, List.length_take]
        have hmin := Nat.min_le_left (limit - 1) cs.length
        omega
      · exact ih (cs.drop (limit - 1)) (by rw [List.length_drop]; omega) ch htail

theorem chunksGo_all_le (limit : Nat) (hl : 1 ≤ limit) (l : List Char) :
    ∀ ch ∈ chunksGo l limit, ch.length ≤ limit :=
  chunksGoFuel_all_le limit hl l.length l le_rfl

theorem chunksGoFuel_length (limit : Nat) (hl : 1 ≤ limit) :
    ∀ (n : Nat) (l : List Char), l.length ≤ n →
      (chunksGoFuel n l limit).length = (l.length + limit - 1) / limit := by
  intro n
  induction n with
  | zero =>
    intro l h
    have hnil : l = [] := List.eq_nil_of_length_eq_zero (Nat.le_zero.mp h)
    subst hnil
    show ([] : List (List Char)).length = (([] : List Char).length + limit - 1) / limit
    simp only [List.length_nil, Nat.zero_add]
    rw [Nat.div_eq_of_lt (by omega)]
  | succ n ih =>
    intro l h
    cases l with
    | nil =>
      show ([] : List (List Char)).length = (([] : List Char).length + limit - 1) / limit
      simp only [List.length_nil, Nat.zero_add]
      rw [Nat.div_eq_of_lt (by omega)]
    | cons c cs =>
      have hcs : cs.length ≤ n := by
        simp [List.length_cons] at h
        omega
      simp only [chunksGoFuel, List.length_cons]
      rw [ih (cs.drop (limit - 1)) (by rw [List.length_drop]; omega)]
      rw [List.length_drop]
      have key : (cs.length - (limit - 1) + limit - 1) / limit = cs.length / limit := by
        rcases Nat.le_total (limit - 1) cs.length with hc | hc
        · have heq : cs.length - (limit - 1) + limit - 1 = cs.length := by omega
          rw [heq]
        · have h0 : cs.length - (limit - 1) = 0 := by omega
          rw [h0]
          rw [Nat.div_eq_of_lt (by omega), Nat.div_eq_of_lt (by omega)]
      rw [key]
      have hr : cs.length + 1 + limit - 1 = cs.length + limit := by omega
      rw [hr, Nat.add_div_right _ (by omega)]

theorem chunksGo_length (limit : Nat) (hl : 1 ≤ limit) (l : List Char) :
    (chunksGo l limit).length = (l.length + limit - 1) / limit :=
  chunksGoFuel_length limit hl l.length l le_rfl

theorem map_dropLast {α β : Type} (f : α → β) :
    ∀ l : List α, (l.map f).dropLast = l.dropLast.map f := by
  intro l
  induction l with
  | nil => rfl
  | cons a as ih =>
    cases as with
    | nil => rfl
    | cons b bs =>
      simp [List.map_cons, List.dropLast_cons_of_ne_nil, ih]

theorem concat_map_mk (ll : List (List Char)) :
    concatChunks (ll.map String.mk) = String.mk ll.flatten := by
  induction ll with
  | nil => rfl
  | cons a as ih =>
    simp only [List.map_cons, concatChunks, List.flatten_cons]
    rw [ih, string_mk_append]

theorem wordBytes_length (w : Nat) : (wordBytes w).length = 4 := rfl

theorem wordBytes_lt (w : Nat) : ∀ b ∈ wordBytes w, b < 256 := by
  intro b hb
  simp only [wordBytes, List.mem_cons, List.not_mem_nil, or_false] at hb
  rcases hb with h | h | h | h <;> omega

theorem sha256Bytes_length (msg : List Nat) : (sha256Bytes msg).length = 32 := by
  simp [sha256Bytes, wordBytes]

theorem sha256Bytes_lt (msg : List Nat) : ∀ b ∈ sha256Bytes msg, b < 256 := by
  intro b hb
  unfold sha256Bytes at hb
  simp only [List.mem_append] at hb
  rcases hb with ((((((h | h) | h) | h) | h) | h) | h) | h <;> exact wordBytes_lt _ _ h

theorem byteToHexChars_length (b : Nat) (hb : b < 256) : (byteToHexChars b).length = 2 := by
  have h : ∀ x < 256, (byteToHexChars x).length = 2 := by decide
  exact h b hb

theorem byteToHexChars_hex (b : Nat) (hb : b < 256) :
    (byteToHexChars b).all isLowerHexChar = true := by
  have h : ∀ x < 256, (byteToHexChars x).all isLowerHexChar = true := by decide
  exact h b hb

theorem hexFlatten_length (bs : List Nat) (h : ∀ b ∈ bs, b < 256) :
    ((bs.map byteToHexChars).flatten).length = 2 * bs.length := by
  induction bs with
  | nil => rfl
  | cons b rest ih =>
    simp only [List.map_cons, List.flatten_cons, List.length_append, List.length_cons]
    rw [byteToHexChars_length b (h b (List.mem_cons_self b rest))]
    rw [ih (fun x hx => h x (List.mem_cons_of_mem b hx))]
    omega

theorem hexFlatten_all (bs : List Nat) (h : ∀ b ∈ bs, b < 256) :
    ((bs.map byteToHexChars).flatten).all isLowerHexChar = true := by
  induction bs with
  | nil => rfl
  | cons b rest ih =>
    simp only [List.map_cons, List.flatten_cons, List.all_append]
    rw [byteToHexChars_hex b (h b (List.mem_cons_self b rest))]
    rw [ih (fun x hx => h x (List.mem_cons_of_mem b hx))]
    rfl

theorem sha256Hex_length (s : String) : (sha256Hex s).length = 64 := by
  unfold sha256Hex
  rw [string_length_mk, hexFlatten_length _ (sha256Bytes_lt _), sha256Bytes_length]

theorem sha256Hex_all_hex (s : String) : (sha256Hex s).data.all isLowerHexChar = true := by
  unfold sha256Hex
  rw [string_data_mk]
  exact hexFlatten_all _ (sha256Bytes_lt _)

theorem nonBlank_eq (o : Option String) : nonBlankJs o = specNonBlank o := by
  cases o with
  | none => rfl
  | some s =>
    show ((s != ("")) && (jsTrim s != (""))) = (jsTrim s != (""))
    by_cases hs : s = ("")
    · subst hs
      rw [jsTrim_empty]
      simp
    · have h1 : (s != ("")) = true := by
        simpa [bne_iff_ne] using hs
      rw [h1, Bool.true_and]

/-! Claim theorems. -/

/-- C1: the claim says the pipeline makes the downstream create call
only when the raw subject contains `INBOX` case-insensitively.  The
current `email` handler never tests the subject: with no allowlist
configured, a message whose subject lacks the marker still reaches the
create call, and the decision is independent of the subject
altogether. -/
theorem c1_subject_gate_missing :
    hasInboxCI ("Hello") = false ∧
    emailHandlerMakesCall (some ("Hello")) none none = true ∧
    (∀ s₁ s₂ f al, emailHandlerMakesCall s₁ f al = emailHandlerMakesCall s₂ f al) := by
  refine ⟨by decide, rfl, fun _ _ _ _ => rfl⟩

/-- C3 counterexample: `normalizeTitle` is not idempotent on every
string.  For `"inbox inbox hello"` the first application strips one
marker leaving `"inbox hello"`, and a second application strips
again. -/
theorem c3_counterexample :
    normalizeTitle ("inbox inbox hello") = ("inbox hello") ∧
    normalizeTitle (normalizeTitle ("inbox inbox hello")) = ("hello") ∧
    ((normalizeTitle (normalizeTitle ("inbox inbox hello")) ==
       normalizeTitle ("inbox inbox hello")) = false) := by
  refine ⟨by decide, by decide, by decide⟩

/-- C3 (amended): `normalizeTitle` is idempotent on every string whose
normalized form is not itself matched by the marker regex — in
particular on every already-normalized string that does not again start
with the marker. -/
theorem c3_normalizeTitle_idem (s : String)
    (h : markerMatches (normalizeTitle s) = false) :
    normalizeTitle (normalizeTitle s) = normalizeTitle s := by
  have hm : matchMarker ((normalizeTitle s).data.dropWhile jsWhitespace) = none := by
    unfold markerMatches at h
    cases hx : matchMarker ((normalizeTitle s).data.dropWhile jsWhitespace) with
    | none => rfl
    | some r =>
      rw [hx] at h
      simp at h
  have hstrip : stripMarker (normalizeTitle s).data = (normalizeTitle s).data := by
    unfold stripMarker
    rw [hm]
  show jsTrim (String.mk (stripMarker (normalizeTitle s).data)) = normalizeTitle s
  rw [hstrip, string_mk_data]
  show jsTrim (jsTrim (String.mk (stripMarker s.data))) = normalizeTitle s
  rw [jsTrim_idem]
  rfl

theorem c3_normalizeTitle_idem_witness :
    markerMatches (normalizeTitle ("INBOX: Hello")) = false ∧
    normalizeTitle (normalizeTitle ("INBOX: Hello")) = normalizeTitle ("INBOX: Hello") :=
  ⟨by decide, c3_normalizeTitle_idem ("INBOX: Hello") (by decide)⟩

/-- C4: `resolveMailText` implements the spec's first-match-wins policy
(the code's extra JS-truthiness test on each candidate is subsumed by
the spec's non-blankness test), never raises, always returns; the four
policy cases are exercised on the spec's own examples. -/
theorem c4_resolveMailText_policy (t h r : Option String) :
    resolveMailText t h r = specResolveMailText t h r ∧
    resolveMailText (some ("plain")) (some ("<p>html</p>")) (some ("raw")) =
      (("plain"), BodySource.text) ∧
    resolveMailText (some ("")) (some ("<p>html</p>")) (some ("raw")) =
      (("html"), BodySource.html) ∧
    resolveMailText (some ("")) (some ("")) (some ("raw fallback")) =
      (("raw fallback"), BodySource.raw) ∧
    resolveMailText (some ("")) (some ("")) (some ("")) = ((""), BodySource.empty) := by
  refine ⟨?_, by decide, by decide, by decide, by decide⟩
  unfold resolveMailText specResolveMailText
  rw [nonBlank_eq t, nonBlank_eq h, nonBlank_eq r]

/-- C5: for every positive limit, the empty string yields no chunks;
the chunks concatenate back to the input exactly (so they are
consecutive, non-overlapping and in order), and every chunk except
possibly the last has length exactly the limit. -/
theorem c5_splitIntoChunks_partition (limit : Nat) (text : String) (hl : 0 < limit) :
    splitIntoChunks ("") limit = [] ∧
    concatChunks (splitIntoChunks text limit) = text ∧
    ((splitIntoChunks text limit).dropLast.all (fun c => c.length == limit)) = true := by
  refine ⟨by simp [splitIntoChunks], ?_, ?_⟩
  · unfold splitIntoChunks
    by_cases ht : text = ("")
    · rw [if_pos ht, ht]
      show concatChunks [] = ("")
      rfl
    · rw [if_neg ht]
      rw [concat_map_mk]
      rw [chunksGo_flatten limit text.data]
  · unfold splitIntoChunks
    by_cases ht : text = ("")
    · rw [if_pos ht]
      rfl
    · rw [if_neg ht]
      rw [map_dropLast]
      rw [List.all_eq_true]
      intro x hx
      rcases List.mem_map.mp hx with ⟨cl, hcl, rfl⟩
      show ((String.mk cl).length == limit) = true
      rw [string_length_mk]
      have hlen := chunksGo_dropLast limit hl text.data cl hcl
      simp [hlen]

theorem c5_splitIntoChunks_partition_witness :
    0 < 3 ∧
    (splitIntoChunks ("") 3 = [] ∧
     concatChunks (splitIntoChunks ("abcdefgh") 3) = ("abcdefgh") ∧
     ((splitIntoChunks ("abcdefgh") 3).dropLast.all (fun c => c.length == 3)) = true) :=
  ⟨by decide, c5_splitIntoChunks_partition 3 ("abcdefgh") (by decide)⟩

/-- C6: `buildFingerprint` is the SHA-256 hex digest of the material
`from|subject|date|bodyHash` with the body's own SHA-256 hex digest
embedded, and the result is always a 64-character lowercase-hex string,
for every input including absent/empty from, subject and body. -/
theorem c6_buildFingerprint_shape (fromAddr subject body : Option String) (date : String) :
    buildFingerprint fromAddr subject date body =
      sha256Hex (fromAddr.getD ("") ++ ("|") ++ subject.getD ("") ++ ("|") ++ date ++
        ("|") ++ sha256Hex (body.getD (""))) ∧
    (buildFingerprint fromAddr subject date body).length = 64 ∧
    (buildFingerprint fromAddr subject date body).data.all isLowerHexChar = true := by
  refine ⟨rfl, sha256Hex_length _, sha256Hex_all_hex _⟩

/-- C7: `buildTitle` never returns the empty string; it returns the
normalized subject when that is non-empty and otherwise the placeholder
`Inbox email ` followed by the first 10 characters of the timestamp;
the two concrete cases of the spec evaluate as stated. -/
theorem c7_buildTitle_nonempty (s d : String) :
    0 < (buildTitle s d).length ∧
    buildTitle s d =
      (if normalizeTitle s = ("") then ("Inbox email ") ++ String.mk (d.data.take 10)
       else normalizeTitle s) ∧
    buildTitle ("") ("2024-02-03T00:00:00.000Z") = ("Inbox email 2024-02-03") ∧
    buildTitle ("INBOX: Hello from unit test") d = ("Hello from unit test") := by
  have h2 : buildTitle s d =
      (if normalizeTitle s = ("") then ("Inbox email ") ++ String.mk (d.data.take 10)
       else normalizeTitle s) := by
    unfold buildTitle
    by_cases hn : normalizeTitle s = ("")
    · have h0 : (normalizeTitle s).length = 0 := (string_eq_empty_iff _).mp hn
      rw [if_pos hn]
      simp [h0]
    · have h0 : (normalizeTitle s).length ≠ 0 := fun hc => hn ((string_eq_empty_iff _).mpr hc)
      rw [if_neg hn]
      simp [h0]
  refine ⟨?_, h2, by decide, ?_⟩
  · rw [h2]
    by_cases hn : normalizeTitle s = ("")
    · rw [if_pos hn, String.length_append]
      have h12 : ("Inbox email " : String).length = 12 := rfl
      omega
    · rw [if_neg hn]
      have h0 : (normalizeTitle s).length ≠ 0 := fun hc => hn ((string_eq_empty_iff _).mpr hc)
      omega
  · have hx : normalizeTitle ("INBOX: Hello from unit test") = ("Hello from unit test") := by
      decide
    show (if (normalizeTitle ("INBOX: Hello from unit test")).length ≠ 0
        then normalizeTitle ("INBOX: Hello from unit test")
        else ("Inbox email ") ++ String.mk (d.data.take 10)) = ("Hello from unit test")
    rw [hx]
    rw [if_pos (by decide : (("Hello from unit test") : String).length ≠ 0)]

/-- C8: `truncateText` never exceeds the limit, returns the input
unchanged when it already fits, and otherwise returns exactly the first
`limit` characters. -/
theorem c8_truncateText_cap (v : String) (limit : Nat) :
    (truncateText v limit).length ≤ limit ∧
    truncateText v limit =
      (if v.length ≤ limit then v else String.mk (v.data.take limit)) := by
  have h2 : truncateText v limit =
      (if v.length ≤ limit then v else String.mk (v.data.take limit)) := by
    unfold truncateText
    by_cases hv : v = ("")
    · subst hv
      simp
    · rw [if_neg hv]
      by_cases hlim : limit < v.length
      · rw [if_pos hlim, if_neg (by omega)]
      · rw [if_neg hlim, if_pos (by omega)]
  refine ⟨?_, h2⟩
  rw [h2]
  by_cases hle : v.length ≤ limit
  · rw [if_pos hle]
    exact hle
  · rw [if_neg hle]
    rw [string_length_mk, List.length_take]
    exact Nat.min_le_left _ _

/-- C10: under the precondition `limit ≥ 1` the (total) embedding of
`splitIntoChunks` produces exactly `⌈length/limit⌉` chunks — zero for
the empty string — matching the strictly increasing loop index of the
source. -/
theorem c10_splitIntoChunks_count (text : String) (limit : Nat) (hl : 1 ≤ limit) :
    (splitIntoChunks text limit).length = (text.length + limit - 1) / limit := by
  unfold splitIntoChunks
  by_cases ht : text = ("")
  · rw [if_pos ht, ht]
    show ([] : List String).length = ((("") : String).length + limit - 1) / limit
    have h0 : (("") : String).length = 0 := rfl
    rw [List.length_nil, h0]
    rw [Nat.div_eq_of_lt (by omega)]
  · rw [if_neg ht, List.length_map]
    rw [chunksGo_length limit hl text.data]
    rfl

theorem c10_splitIntoChunks_count_witness :
    1 ≤ 2 ∧ (splitIntoChunks ("abcde") 2).length = (("abcde").length + 2 - 1) / 2 :=
  ⟨by decide, c10_splitIntoChunks_count ("abcde") 2 (by decide)⟩

theorem truncateText_length_le (v : String) (limit : Nat) :
    (truncateText v limit).length ≤ limit := by
  unfold truncateText
  by_cases hv : v = ("")
  · rw [if_pos hv]
    exact Nat.zero_le limit
  · rw [if_neg hv]
    by_cases hlim : limit < v.length
    · rw [if_pos hlim, string_length_mk, List.length_take]
      exact Nat.min_le_left _ _
    · rw [if_neg hlim]
      omega

theorem chunkBlocks_le (text : String) :
    ∀ b ∈ ((splitIntoChunks text CHILD_BLOCK_LIMIT).filter
        (fun c => jsTrim c != (""))).map buildParagraph,
      b.content.length ≤ 1500 := by
  intro b hb
  rcases List.mem_map.mp hb with ⟨c, hc, rfl⟩
  have hcmem : c ∈ splitIntoChunks text CHILD_BLOCK_LIMIT := (List.mem_filter.mp hc).1
  unfold splitIntoChunks at hcmem
  by_cases ht : text = ("")
  · rw [if_pos ht] at hcmem
    exact absurd hcmem (List.not_mem_nil c)
  · rw [if_neg ht] at hcmem
    rcases List.mem_map.mp hcmem with ⟨cl, hcl, rfl⟩
    show (String.mk cl).length ≤ 1500
    rw [string_length_mk]
    exact chunksGo_all_le CHILD_BLOCK_LIMIT (by decide) text.data cl hcl

/-- C2 (amended): every body-chunk block's text is at most the
1500-character per-block cap and the raw preview is at most the
1800-character preview cap; the optional leading sender block's text is
`From: ` followed by the address, so every block is within the cap
whenever the sender address has at most 1494 characters, and always
when the sender is absent. -/
theorem c2_block_caps (text : String) (a : String) (ha : a.length ≤ 1494) :
    ((buildChildrenBlocks text (some a)).all
      (fun b => decide (b.content.length ≤ 1500))) = true ∧
    ((buildChildrenBlocks text none).all
      (fun b => decide (b.content.length ≤ 1500))) = true ∧
    (truncateText text RAW_PREVIEW_LIMIT).length ≤ RAW_PREVIEW_LIMIT := by
  refine ⟨?_, ?_, truncateText_length_le text RAW_PREVIEW_LIMIT⟩
  · rw [List.all_eq_true]
    intro b hb
    simp only [decide_eq_true_eq]
    unfold buildChildrenBlocks at hb
    rw [List.mem_append] at hb
    rcases hb with hfrom | hchunkmem
    · by_cases haz : a = ("")
      · rw [haz] at hfrom
        simp [jsTruthyStr] at hfrom
      · have htr : jsTruthyStr (some a) = true := by
          show (a != ("")) = true
          simpa [bne_iff_ne] using haz
        rw [htr] at hfrom
        simp only [if_true, List.mem_singleton] at hfrom
        subst hfrom
        show (("From: ") ++ a).length ≤ 1500
        rw [String.length_append]
        have h6 : (("From: ") : String).length = 6 := rfl
        omega
    · exact chunkBlocks_le text b hchunkmem
  · rw [List.all_eq_true]
    intro b hb
    simp only [decide_eq_true_eq]
    unfold buildChildrenBlocks at hb
    rw [List.mem_append] at hb
    rcases hb with hfrom | hchunkmem
    · simp [jsTruthyStr] at hfrom
    · exact chunkBlocks_le text b hchunkmem

theorem c2_block_caps_witness :
    (("me@example.com") : String).length ≤ 1494 ∧
    (((buildChildrenBlocks ("hello") (some ("me@example.com"))).all
       (fun b => decide (b.content.length ≤ 1500))) = true ∧
     ((buildChildrenBlocks ("hello") none).all
       (fun b => decide (b.content.length ≤ 1500))) = true ∧
     (truncateText ("hello") RAW_PREVIEW_LIMIT).length ≤ RAW_PREVIEW_LIMIT) :=
  ⟨by decide, c2_block_caps ("hello") ("me@example.com") (by decide)⟩

/-- C2 counterexample: with a 1495-character sender address the leading
`From:` block carries 1501 characters, exceeding the 1500-character
per-block cap the claim asserts for every sender address. -/
theorem c2_counterexample :
    ((buildChildrenBlocks ("") (some (String.mk (List.replicate 1495 'a')))).all
      (fun b => decide (b.content.length ≤ 1500))) = false ∧
    ((buildChildrenBlocks ("") (some (String.mk (List.replicate 1495 'a')))).map
      (fun b => b.content.length)) = [1501] := by
  constructor <;> decide

theorem requireBearerAuth_none_iff (ah : Option String) (token : String)
    (htok : token ≠ ("")) :
    requireBearerAuth ah token = none ↔ specAuthorized ah token = true := by
  unfold requireBearerAuth specAuthorized
  rw [if_neg htok]
  cases ah with
  | none => simp
  | some h =>
    show (if (jsSplitSpace h).getD 0 ("") ≠ ("Bearer") ∨ (jsSplitSpace h)[1]? ≠ some token
        then some ("invalid_token") else none) = none ↔
      (((jsSplitSpace h).getD 0 ("") == ("Bearer")) &&
        ((jsSplitSpace h).getD 1 ("") == token)) = true
    have hgd : (jsSplitSpace h).getD 1 ("") = ((jsSplitSpace h)[1]?).getD ("") :=
      List.getD_eq_getElem?_getD _ _ _
    by_cases hs : (jsSplitSpace h).getD 0 ("") = ("Bearer")
    · by_cases hv : (jsSplitSpace h)[1]? = some token
      · rw [if_neg (by push_neg; exact ⟨hs, hv⟩)]
        have hg : (jsSplitSpace h).getD 1 ("") = token := by
          rw [hgd, hv]
          rfl
        rw [beq_iff_eq.mpr hs, beq_iff_eq.mpr hg]
        simp
      · rw [if_pos (Or.inr hv)]
        have hg : ((jsSplitSpace h).getD 1 ("") == token) = false := by
          rw [hgd]
          cases hp : (jsSplitSpace h)[1]? with
          | none =>
            show ((("") : String) == token) = false
            exact beq_eq_false_iff_ne.mpr (fun hc => htok hc.symm)
          | some v =>
            show ((v : String) == token) = false
            refine beq_eq_false_iff_ne.mpr ?_
            intro hc
            subst hc
            exact hv hp
        rw [hg, Bool.and_false]
        simp
    · rw [if_pos (Or.inl hs)]
      have hb : ((jsSplitSpace h).getD 0 ("") == ("Bearer")) = false :=
        beq_eq_false_iff_ne.mpr hs
      rw [hb, Bool.false_and]
      simp

/-- C9 (amended): with the required configuration present (a non-empty
bearer secret), any method/path other than `POST /debug/email` yields
404 and a missing or non-matching bearer credential yields 401, as
claimed; the body then yields 400 exactly when it is missing,
unparsable, or parses to a non-object non-array JSON value — a JSON
array, though not a JSON object, is accepted and processing yields
200, as does a JSON object. -/
theorem c9_debug_endpoint (req : DebugRequest) (token : String)
    (htok : token ≠ ("")) :
    workerFetch req token = specDebugStatus req token := by
  unfold workerFetch specDebugStatus
  by_cases hroute : req.method ≠ ("POST") ∨ req.path ≠ ("/debug/email")
  · rw [if_pos hroute, if_pos hroute]
  · rw [if_neg hroute, if_neg hroute]
    by_cases hauth : requireBearerAuth req.authHeader token = none
    · have hspec : specAuthorized req.authHeader token = true :=
        (requireBearerAuth_none_iff _ _ htok).mp hauth
      rw [hauth, hspec]
      cases req.body with
      | none => rfl
      | some payload => cases payload <;> simp [jsTruthy, jsTypeofIsObject]
    · have hspec : specAuthorized req.authHeader token = false := by
        cases hx : specAuthorized req.authHeader token
        · rfl
        · exact absurd ((requireBearerAuth_none_iff _ _ htok).mpr hx) hauth
      cases hr : requireBearerAuth req.authHeader token with
      | none => exact absurd hr hauth
      | some r =>
        rw [hspec]
        rfl

theorem c9_debug_endpoint_witness :
    (("s3cret") : String) ≠ ("") ∧
    workerFetch ⟨("GET"), ("/"), none, none⟩ ("s3cret") =
      specDebugStatus ⟨("GET"), ("/"), none, none⟩ ("s3cret") :=
  ⟨by decide, c9_debug_endpoint ⟨("GET"), ("/"), none, none⟩ ("s3cret") (by decide)⟩

/-- C9 counterexample: a well-routed, correctly authenticated request
whose body is the JSON array `[]` — parseable as JSON but not as a JSON
object — is answered 200, not the 400 the claim asserts. -/
theorem c9_counterexample :
    workerFetch ⟨("POST"), ("/debug/email"), some ("Bearer s3cret"),
      some (Json.arr [])⟩ ("s3cret") = 200 ∧
    isJsonObject (Json.arr []) = false ∧
    ((workerFetch ⟨("POST"), ("/debug/email"), some ("Bearer s3cret"),
      some (Json.arr [])⟩ ("s3cret")) == 400) = false := by
  refine ⟨by decide, rfl, by decide⟩
